import Mathlib

/-!
Shallow embedding of the wave-function-collapse tile editor (src/src/main.rs)
and verification of its specification claims.

Modelling conventions:
  * Rust `Vec<T>` becomes `List T`; `HashSet` insertion becomes insert-if-absent
    on a duplicate-free list (or a `Finset` where only set contents matter);
    `HashMap k v` becomes the function `k → Option v` with pointwise update.
  * `usize` becomes `Nat`; `wrapping_sub(1)` is modelled explicitly so that the
    underflow behaviour at 0 is preserved (the wrapped value is `2^64 - 1`).
  * Rust indexing that can panic (`v[i]` without a preceding bounds guarantee)
    is embedded as `Option`-returning lookup where a claim depends on the panic,
    and as `getD`-lookup where every reachable use is in bounds.
  * `f32`/`f64` colour and window fields carry no arithmetic relevant to the
    claims; they are embedded as exact rationals holding the literal constants.
-/

/-- The five tile categories of the editor (enum TileType). -/
inductive TileType where
  | Empty
  | Mountain
  | Land
  | Coast
  | Water
deriving DecidableEq, Repr

/-- One map cell: colour, category, visibility (struct Tile). -/
structure Tile where
  colour : List ℚ
  tile_type : TileType
  visible : Bool
deriving DecidableEq, Repr

def Tile.new (tile_type : TileType) (colour : List ℚ) : Tile :=
  { colour := colour, tile_type := tile_type, visible := true }

def Tile.empty : Tile := Tile.new TileType.Empty [0, 0, 0, 0]

def Tile.mountain : Tile := Tile.new TileType.Mountain [1/2, 1/2, 1/2, 1]

def Tile.land : Tile := Tile.new TileType.Land [3/10, 4/5, 2/5, 1]

def Tile.coast : Tile := Tile.new TileType.Coast [4/5, 7/10, 3/5, 1]

def Tile.water : Tile := Tile.new TileType.Water [1/5, 2/5, 4/5, 1]

/-- The editor state (struct TileSystem). `saved_configs` is the extensional
view of the `HashMap<String, Vec<Vec<TileType>>>`. -/
structure TileSystem where
  tiles : List (List Tile)
  tile_size : ℚ
  grid_width : Nat
  grid_height : Nat
  window_width : ℚ
  window_height : ℚ
  saved_configs : String → Option (List (List TileType))

/-- `TileSystem::get_tile`: guarded read of `tiles[y][x]`. Within a system
whose `tiles` really is a `grid_height × grid_width` matrix the guard makes the
indexing in-bounds, so total `getD` lookup coincides with the Rust read. -/
def TileSystem.get_tile (ts : TileSystem) (x y : Nat) : Option Tile :=
  if x < ts.grid_width ∧ y < ts.grid_height then
    some ((ts.tiles.getD y []).getD x Tile.empty)
  else
    none

/-- `TileSystem::set_tile`: guarded write of `tiles[x][y]` (note the swapped
order relative to `get_tile`). The write indexes the vector directly, so the
embedding returns `none` exactly where the Rust code would panic. -/
def TileSystem.set_tile (ts : TileSystem) (x y : Nat) (tile : Tile) :
    Option (TileSystem × Bool) :=
  if x < ts.grid_width ∧ y < ts.grid_height then
    match ts.tiles.get? x with
    | some row =>
        if y < row.length then
          some ({ ts with tiles := ts.tiles.set x (row.set y tile) }, true)
        else
          none
    | none => none
  else
    some (ts, false)

/-- `tiles` is an `h × w` matrix: `h` rows, each of width `w`. -/
def IsMatrix (m : List (List Tile)) (h w : Nat) : Prop :=
  m.length = h ∧ ∀ row ∈ m, row.length = w

/-- A concrete 2×2 system with all-empty tiles, used to exercise the grid
addressing at explicit coordinates. -/
def ts22 : TileSystem :=
  { tiles := [[Tile.empty, Tile.empty], [Tile.empty, Tile.empty]]
    tile_size := 32
    grid_width := 2
    grid_height := 2
    window_width := 64
    window_height := 64
    saved_configs := fun _ => none }

/-- A concrete 1×2 system (grid_width = 2, grid_height = 1): one row of two
tiles, a well-formed non-square grid. -/
def ts12 : TileSystem :=
  { tiles := [[Tile.empty, Tile.empty]]
    tile_size := 32
    grid_width := 2
    grid_height := 1
    window_width := 64
    window_height := 32
    saved_configs := fun _ => none }

/-- C1: the claimed set/get round trip fails on the code. On the well-formed
2×2 grid `ts22`, `set_tile 0 1 mountain` succeeds (writes `tiles[0][1]`) but
`get_tile 0 1` reads `tiles[1][0]` and still returns the old `Tile.empty`, not
the mountain tile that was set: storage and query use swapped conventions. -/
theorem get_after_set_swaps_axes :
    (ts22.set_tile 0 1 Tile.mountain).map (fun p => p.1.get_tile 0 1)
      = some (some Tile.empty)
    ∧ Tile.empty ≠ Tile.mountain := by
  constructor
  · rfl
  · intro h
    exact absurd (congrArg Tile.tile_type h) (by decide)

/-- C7: the bounds check of `set_tile` does not protect its own indexing. On
the well-formed non-square system `ts12` (a 1×2 matrix, grid_width = 2,
grid_height = 1) the call `set_tile 1 0` passes the guard `x < grid_width ∧
y < grid_height` but then indexes row `tiles[1]`, which does not exist: the
embedded indexing hits its error branch (a panic in the Rust code). -/
theorem set_tile_panics_on_nonsquare :
    IsMatrix ts12.tiles ts12.grid_height ts12.grid_width
    ∧ 1 < ts12.grid_width ∧ 0 < ts12.grid_height
    ∧ ts12.set_tile 1 0 Tile.mountain = none := by
  refine ⟨⟨rfl, ?_⟩, by decide, by decide, rfl⟩
  intro row hrow
  simp [ts12] at hrow ⊢
  simp [hrow]

/-- The tile constructed for a stored `TileType` by `load_config`'s match. -/
def tileOf : TileType → Tile
  | TileType.Empty => Tile.empty
  | TileType.Mountain => Tile.mountain
  | TileType.Land => Tile.land
  | TileType.Coast => Tile.coast
  | TileType.Water => Tile.water

/-- `TileSystem::save_config`: snapshot the current `tile_type` matrix. -/
def configOf (tiles : List (List Tile)) : List (List TileType) :=
  tiles.map (fun row => row.map (fun t => t.tile_type))

def TileSystem.save_config (ts : TileSystem) (name : String) : TileSystem :=
  { ts with saved_configs :=
      fun k => if k = name then some (configOf ts.tiles) else ts.saved_configs k }

/-- One guarded write of `load_config`'s inner loop body:
`if y < grid_height && x < grid_width { tiles[y][x] = tile }`. -/
def writeCell (h w : Nat) (tiles : List (List Tile)) (y x : Nat) (tt : TileType) :
    List (List Tile) :=
  if y < h ∧ x < w then
    tiles.set y ((tiles.getD y []).set x (tileOf tt))
  else
    tiles

/-- `load_config`'s inner loop over one enumerated config row. -/
def loadRowLoop (h w y : Nat) : Nat → List TileType → List (List Tile) → List (List Tile)
  | _, [], tiles => tiles
  | x, tt :: rest, tiles => loadRowLoop h w y (x + 1) rest (writeCell h w tiles y x tt)

/-- `load_config`'s outer loop over the enumerated config rows. -/
def loadLoop (h w : Nat) : Nat → List (List TileType) → List (List Tile) → List (List Tile)
  | _, [], tiles => tiles
  | y, row :: rest, tiles => loadLoop h w (y + 1) rest (loadRowLoop h w y 0 row tiles)

/-- `TileSystem::load_config`: look the name up; on a hit, replay the stored
tile types into `tiles` and return true, otherwise return false. -/
def TileSystem.load_config (ts : TileSystem) (name : String) : TileSystem × Bool :=
  match ts.saved_configs name with
  | some cfg =>
      ({ ts with tiles := loadLoop ts.grid_height ts.grid_width 0 cfg ts.tiles }, true)
  | none => (ts, false)

/-- `TileSystem::delete_config`: `HashMap::remove` semantics — on a hit the
entry is dropped and its value returned, on a miss the map is untouched and
the not-found message is the error. -/
def TileSystem.delete_config (ts : TileSystem) (name : String) :
    TileSystem × Except String (List (List TileType)) :=
  match ts.saved_configs name with
  | some value =>
      ({ ts with saved_configs := fun k => if k = name then none else ts.saved_configs k },
        Except.ok value)
  | none => (ts, Except.error (" Item \x27" ++ name ++ "\x27 not found"))

/-- C6: the configuration store contract. Saving under any name — present or
not — makes the stored value the current snapshot (duplicates overwrite);
loading a missing name returns false with the whole system unchanged; deleting
a missing name returns the not-found error with the whole system unchanged, so
no operation creates an entry for a missing name. -/
theorem config_store_contract (ts : TileSystem) (name : String) :
    ((ts.save_config name).saved_configs name = some (configOf ts.tiles))
    ∧ (ts.saved_configs name = none → ts.load_config name = (ts, false))
    ∧ (ts.saved_configs name = none →
        ts.delete_config name
          = (ts, Except.error (" Item \x27" ++ name ++ "\x27 not found"))) := by
  refine ⟨?_, ?_, ?_⟩
  · simp [TileSystem.save_config]
  · intro h
    simp [TileSystem.load_config, h]
  · intro h
    simp [TileSystem.delete_config, h]

/-- C6 witness: the contract evaluated on the concrete system `ts22` and the
missing name "a". -/
theorem config_store_contract_witness :
    ts22.saved_configs "a" = none
    ∧ (((ts22.save_config "a").saved_configs "a" = some (configOf ts22.tiles))
        ∧ (ts22.saved_configs "a" = none → ts22.load_config "a" = (ts22, false))
        ∧ (ts22.saved_configs "a" = none →
            ts22.delete_config "a"
              = (ts22, Except.error (" Item \x27" ++ "a" ++ "\x27 not found")))) :=
  ⟨rfl, config_store_contract ts22 "a"⟩

/-- The worklist loop of `fill_to_border`. The Rust stack is the list head
(push = cons, pop = head); pushes happen in source order left, right, up, down,
so down ends on top. `fuel` bounds the iteration count of the embedded `while`
loop; the in-loop writes index `visited[x][y]` and `tiles[x][y]` and are
embedded with total `set`/`getD` access. -/
def fillLoop (original : TileType) (new_tile : Tile) :
    Nat → TileSystem → List (List Bool) → List (Nat × Nat) → TileSystem
  | 0, ts, _, _ => ts
  | _ + 1, ts, _, [] => ts
  | fuel + 1, ts, visited, (x, y) :: rest =>
    if x ≥ ts.grid_width ∨ y ≥ ts.grid_height then
      fillLoop original new_tile fuel ts visited rest
    else if (visited.getD x []).getD y false then
      fillLoop original new_tile fuel ts visited rest
    else
      match ts.get_tile x y with
      | none => fillLoop original new_tile fuel ts visited rest
      | some current_tile =>
        if current_tile.tile_type ≠ original then
          fillLoop original new_tile fuel ts visited rest
        else
          let visited1 := visited.set x ((visited.getD x []).set y true)
          let ts1 := { ts with tiles := ts.tiles.set x ((ts.tiles.getD x []).set y new_tile) }
          let s1 := if 0 < x then (x - 1, y) :: rest else rest
          let s2 := if x < ts.grid_width - 1 then (x + 1, y) :: s1 else s1
          let s3 := if 0 < y then (x, y - 1) :: s2 else s2
          let s4 := if y < ts.grid_height - 1 then (x, y + 1) :: s3 else s3
          fillLoop original new_tile fuel ts1 visited1 s4

/-- `TileSystem::fill_to_border`: read the start tile (early return when out of
bounds), early return when the start already has the fill's `tile_type`, else
run the flood-fill worklist from the start cell over a fresh `visited` grid. -/
def TileSystem.fill_to_border (ts : TileSystem) (start_x start_y : Nat)
    (new_tile : Tile) (fuel : Nat) : TileSystem :=
  match ts.get_tile start_x start_y with
  | none => ts
  | some tile =>
    if tile.tile_type = new_tile.tile_type then ts
    else
      let visited :=
        (List.range ts.grid_height).map (fun _ => (List.range ts.grid_width).map (fun _ => false))
      fillLoop tile.tile_type new_tile fuel ts visited [(start_x, start_y)]

/-- C10: both early-return guards of `fill_to_border` leave the system intact.
If the start coordinates are out of bounds (`get_tile` returns none), or the
tile read at the start already has the `tile_type` being filled, the function
returns the very same `TileSystem`, every field unchanged. -/
theorem fill_to_border_guard_noop (ts : TileSystem) (sx sy : Nat)
    (new_tile : Tile) (fuel : Nat)
    (h : ts.get_tile sx sy = none
        ∨ ∃ tile, ts.get_tile sx sy = some tile ∧ tile.tile_type = new_tile.tile_type) :
    ts.fill_to_border sx sy new_tile fuel = ts := by
  rcases h with h | ⟨tile, hget, hty⟩
  · simp [TileSystem.fill_to_border, h]
  · simp [TileSystem.fill_to_border, hget, hty]

/-- C10 witness: on `ts22` the start (5,5) is out of bounds, so the fill with
any tile and any fuel is the identity. -/
theorem fill_to_border_guard_noop_witness :
    (ts22.get_tile 5 5 = none
      ∨ ∃ tile, ts22.get_tile 5 5 = some tile ∧ tile.tile_type = Tile.water.tile_type)
    ∧ ts22.fill_to_border 5 5 Tile.water 9 = ts22 :=
  ⟨Or.inl rfl, fill_to_border_guard_noop ts22 5 5 Tile.water 9 (Or.inl rfl)⟩

/-- One output cell of the wave (struct SuperpositionState). `possible_tiles`
is the extensional view of the `HashSet<usize>`. -/
structure SuperpositionState where
  possible_tiles : Finset Nat
  collapsed : Bool
  entropy : Nat
deriving DecidableEq

/-- `SuperpositionState::new`: collect `(0..tile_count)` into the set, take the
set's size as entropy, start uncollapsed. The Rust `collect` inserts the range
elements one by one. -/
def SuperpositionState.new (tile_count : Nat) : SuperpositionState :=
  let possible_tiles : Finset Nat :=
    (List.range tile_count).foldl (fun s i => insert i s) ∅
  { possible_tiles := possible_tiles
    collapsed := false
    entropy := possible_tiles.card }

/-- `SuperpositionState::from_tile`: a singleton possibility, already
collapsed, entropy 1. -/
def SuperpositionState.from_tile (tile_id : Nat) : SuperpositionState :=
  { possible_tiles := insert tile_id ∅
    collapsed := true
    entropy := 1 }

/-- `create_superposition_grid`: empty output for zero rows, else a
`rows × cols` grid of fresh full-superposition cells, where `cols` is the
length of the first input row. -/
def create_superposition_grid (input_grid : List (List TileType))
    (unique_tile_count : Nat) : List (List SuperpositionState) :=
  let rows := input_grid.length
  if rows = 0 then []
  else
    let cols := (input_grid.getD 0 []).length
    (List.range rows).map (fun _ =>
      (List.range cols).map (fun _ => SuperpositionState.new unique_tile_count))

/-- A `List (List α)` grid is rectangular with `h` rows of width `w`. -/
def RectGrid (g : List (List TileType)) (h w : Nat) : Prop :=
  g.length = h ∧ ∀ row ∈ g, row.length = w

/-- Collecting the range `0..n` by repeated insertion yields `Finset.range n`. -/
lemma collect_range_eq (n : Nat) :
    (List.range n).foldl (fun s i => insert i s) (∅ : Finset Nat) = Finset.range n := by
  induction n with
  | zero => rfl
  | succ m ih =>
      rw [List.range_succ, List.foldl_append, ih]
      simp [Finset.range_succ]

lemma new_possible_tiles (n : Nat) :
    (SuperpositionState.new n).possible_tiles = Finset.range n := by
  simp [SuperpositionState.new, collect_range_eq]

/-- C4: wave initialization. `SuperpositionState::new n` has possibility set
exactly `{0, …, n−1}`, entropy `n`, and is uncollapsed; and on a non-empty
rectangular `h × w` input grid, `create_superposition_grid` yields an `h × w`
grid every cell of which is that state. -/
theorem wave_initialization (n : Nat) (g : List (List TileType)) (h w : Nat)
    (hrect : RectGrid g h w) (hne : 0 < h) :
    ((SuperpositionState.new n).possible_tiles = Finset.range n
      ∧ (SuperpositionState.new n).entropy = n
      ∧ (SuperpositionState.new n).collapsed = false)
    ∧ ((create_superposition_grid g n).length = h
      ∧ (∀ row ∈ create_superposition_grid g n, row.length = w)
      ∧ ∀ row ∈ create_superposition_grid g n, ∀ cell ∈ row,
          cell = SuperpositionState.new n) := by
  obtain ⟨hlen, hrow⟩ := hrect
  refine ⟨⟨new_possible_tiles n, ?_, rfl⟩, ?_⟩
  · simp [SuperpositionState.new, collect_range_eq]
  · cases g with
    | nil =>
        rw [List.length_nil] at hlen
        omega
    | cons r rs =>
        have hr : r.length = w := hrow r (by simp)
        have hcg : create_superposition_grid (r :: rs) n =
            List.replicate (rs.length + 1)
              (List.replicate w (SuperpositionState.new n)) := by
          simp [create_superposition_grid, hr]
        rw [List.length_cons] at hlen
        refine ⟨?_, ?_, ?_⟩
        · rw [hcg, List.length_replicate, hlen]
        · intro row hmem
          rw [hcg] at hmem
          rw [List.eq_of_mem_replicate hmem, List.length_replicate]
        · intro row hmem cell hcell
          rw [hcg] at hmem
          rw [List.eq_of_mem_replicate hmem] at hcell
          exact List.eq_of_mem_replicate hcell

/-- C4 witness: the initialization theorem evaluated at tile count 3 on the
concrete 2×2 grid of Land/Water. -/
theorem wave_initialization_witness :
    RectGrid [[TileType.Land, TileType.Water], [TileType.Water, TileType.Land]] 2 2
    ∧ 0 < 2
    ∧ (((SuperpositionState.new 3).possible_tiles = Finset.range 3
        ∧ (SuperpositionState.new 3).entropy = 3
        ∧ (SuperpositionState.new 3).collapsed = false)
      ∧ ((create_superposition_grid
            [[TileType.Land, TileType.Water], [TileType.Water, TileType.Land]] 3).length = 2
        ∧ (∀ row ∈ create_superposition_grid
            [[TileType.Land, TileType.Water], [TileType.Water, TileType.Land]] 3,
            row.length = 2)
        ∧ ∀ row ∈ create_superposition_grid
            [[TileType.Land, TileType.Water], [TileType.Water, TileType.Land]] 3,
            ∀ cell ∈ row, cell = SuperpositionState.new 3)) :=
  ⟨⟨rfl, by decide⟩, by decide,
    wave_initialization 3 _ 2 2 ⟨rfl, by decide⟩ (by decide)⟩

/-- C5 counterexample: `SuperpositionState::new 0` is an open cell (collapsed
is false) whose possibility set is empty, so the constructors do not guarantee
a non-empty set for every open cell. -/
theorem new_zero_open_and_empty :
    (SuperpositionState.new 0).collapsed = false
    ∧ (SuperpositionState.new 0).possible_tiles = ∅ :=
  ⟨rfl, rfl⟩

/-- C5 amended: for positive `tile_count`, an open cell built by
`SuperpositionState::new` has a non-empty possibility set; `from_tile` cells
are never open (and are non-empty anyway); and neither constructor ever pairs
an empty possibility set with `collapsed = true`. -/
theorem open_cells_nonempty_amended (n tile_id : Nat) :
    (0 < n → (SuperpositionState.new n).collapsed = false →
        (SuperpositionState.new n).possible_tiles.Nonempty)
    ∧ ((SuperpositionState.from_tile tile_id).collapsed = false →
        (SuperpositionState.from_tile tile_id).possible_tiles.Nonempty)
    ∧ ¬((SuperpositionState.new n).possible_tiles = ∅
          ∧ (SuperpositionState.new n).collapsed = true)
    ∧ ¬((SuperpositionState.from_tile tile_id).possible_tiles = ∅
          ∧ (SuperpositionState.from_tile tile_id).collapsed = true) := by
  refine ⟨?_, ?_, ?_, ?_⟩
  · intro hn _
    rw [new_possible_tiles]
    exact Finset.nonempty_range_iff.mpr (by omega)
  · intro h
    simp [SuperpositionState.from_tile] at h
  · rintro ⟨-, hcol⟩
    simp [SuperpositionState.new] at hcol
  · rintro ⟨hempty, -⟩
    simp [SuperpositionState.from_tile] at hempty

/-- C5 amended witness: the amended invariant evaluated at tile_count 2 and
tile id 5. -/
theorem open_cells_nonempty_amended_witness :
    0 < 2
    ∧ ((0 < 2 → (SuperpositionState.new 2).collapsed = false →
          (SuperpositionState.new 2).possible_tiles.Nonempty)
      ∧ ((SuperpositionState.from_tile 5).collapsed = false →
          (SuperpositionState.from_tile 5).possible_tiles.Nonempty)
      ∧ ¬((SuperpositionState.new 2).possible_tiles = ∅
            ∧ (SuperpositionState.new 2).collapsed = true)
      ∧ ¬((SuperpositionState.from_tile 5).possible_tiles = ∅
            ∧ (SuperpositionState.from_tile 5).collapsed = true)) :=
  ⟨by decide, open_cells_nonempty_amended 2 5⟩

/-- Total number of cells in a grid of superposition states. -/
def totalCells (grid : List (List SuperpositionState)) : Nat :=
  (grid.map List.length).sum

/-- C9: zero-dimension inputs produce a wave with no cells. If the input grid
has zero rows, or all of its rows have zero columns, the superposition grid
returned by `create_superposition_grid` contains no cells at all. -/
theorem zero_dimension_trivial (g : List (List TileType)) (n : Nat)
    (h : g = [] ∨ ∀ row ∈ g, row.length = 0) :
    totalCells (create_superposition_grid g n) = 0 := by
  rcases h with h | h
  · subst h
    rfl
  · cases g with
    | nil => rfl
    | cons r rs =>
        have hr : r.length = 0 := h r (by simp)
        have hcg : create_superposition_grid (r :: rs) n =
            List.replicate (rs.length + 1)
              (List.replicate 0 (SuperpositionState.new n)) := by
          simp [create_superposition_grid, hr]
        rw [hcg]
        simp [totalCells]

/-- C9 witness: a 2-row grid whose rows are both empty yields a cell-free
superposition grid. -/
theorem zero_dimension_trivial_witness :
    (([] : List (List TileType)) = [] ∨ ∀ row ∈ ([] : List (List TileType)), row.length = 0)
    ∧ totalCells (create_superposition_grid ([[], []] : List (List TileType)) 4) = 0 :=
  ⟨Or.inl rfl,
    zero_dimension_trivial [[], []] 4 (Or.inr (by intro row hr; simp at hr; simp [hr]))⟩

/-- The four cardinal directions (enum Direction). -/
inductive Direction where
  | Up
  | Down
  | Left
  | Right
deriving DecidableEq, Repr

/-- The range of `usize`: values live below `2^64`. -/
def USIZE : Nat := 2 ^ 64

/-- `usize::wrapping_sub(1)`: underflows from 0 to `2^64 - 1`. -/
def wrapping_sub1 (x : Nat) : Nat := if x = 0 then USIZE - 1 else x - 1

/-- Read the sample grid at (row, column); every use below is guarded to be in
bounds, where `getD` coincides with the panicking Rust index. -/
def cellAt (g : List (List TileType)) (r c : Nat) : TileType :=
  (g.getD r []).getD c TileType.Empty

/-- The (row, column) the `directions` array pairs with each direction at cell
`(ri, ci)`: up is `(ri.wrapping_sub(1), ci)`, down `(ri+1, ci)`, left
`(ri, ci.wrapping_sub(1))`, right `(ri, ci+1)`. -/
def dirTarget (ri ci : Nat) : Direction → Nat × Nat
  | Direction.Up => (wrapping_sub1 ri, ci)
  | Direction.Down => (ri + 1, ci)
  | Direction.Left => (ri, wrapping_sub1 ci)
  | Direction.Right => (ri, ci + 1)

/-- The learned rules: extensional view of
`HashMap<usize, HashSet<(Direction, usize)>>`, each entry a duplicate-free
list. -/
def AdjMap : Type := Nat → Option (List (Direction × Nat))

/-- `HashSet::insert`: append the element only when it is not yet present. -/
def hsInsert (s : List (Direction × Nat)) (x : Direction × Nat) :
    List (Direction × Nat) :=
  if x ∈ s then s else s ++ [x]

/-- One iteration of the `for (dir, r, c) in directions` loop: insert the
neighbour fact when `r < rows && c < cols && !(r == row_idx && c == col_idx)`. -/
def insStep (g : List (List TileType)) (tid : TileType → Nat)
    (rows cols ri ci : Nat) (d : Direction) (s : List (Direction × Nat)) :
    List (Direction × Nat) :=
  if (dirTarget ri ci d).1 < rows ∧ (dirTarget ri ci d).2 < cols
      ∧ ¬((dirTarget ri ci d).1 = ri ∧ (dirTarget ri ci d).2 = ci) then
    hsInsert s (d, tid (cellAt g (dirTarget ri ci d).1 (dirTarget ri ci d).2))
  else
    s

/-- The body of the cell loop of `build_adjacency_rules`: fetch (or create)
the entry for the cell's tile id and run the four direction insertions on it. -/
def processCell (g : List (List TileType)) (tid : TileType → Nat)
    (rows cols ri ci : Nat) (t : TileType) (m : AdjMap) : AdjMap :=
  let tile_id := tid t
  let s0 := (m tile_id).getD []
  let s1 := insStep g tid rows cols ri ci Direction.Up s0
  let s2 := insStep g tid rows cols ri ci Direction.Down s1
  let s3 := insStep g tid rows cols ri ci Direction.Left s2
  let s4 := insStep g tid rows cols ri ci Direction.Right s3
  fun k => if k = tile_id then some s4 else m k

/-- The enumerated cell loop over one sample row (`cols` is that row's own
length, as in the source). -/
def buildCells (g : List (List TileType)) (tid : TileType → Nat)
    (rows cols ri : Nat) : Nat → List TileType → AdjMap → AdjMap
  | _, [], m => m
  | ci, t :: rest, m =>
      buildCells g tid rows cols ri (ci + 1) rest (processCell g tid rows cols ri ci t m)

/-- The enumerated row loop of `build_adjacency_rules`. -/
def buildRows (g : List (List TileType)) (tid : TileType → Nat) (rows : Nat) :
    Nat → List (List TileType) → AdjMap → AdjMap
  | _, [], m => m
  | ri, row :: rest, m =>
      buildRows g tid rows (ri + 1) rest (buildCells g tid rows row.length ri 0 row m)

/-- `build_adjacency_rules`: scan every cell of the sample and record each
in-bounds neighbour observation under the cell's tile id. -/
def build_adjacency_rules (g : List (List TileType)) (tid : TileType → Nat) : AdjMap :=
  buildRows g tid g.length 0 g (fun _ => none)

/-- The map contains the fact `(d, b)` in the entry for tile id `a`. -/
def adjMem (m : AdjMap) (a : Nat) (d : Direction) (b : Nat) : Prop :=
  (d, b) ∈ (m a).getD []

/-- The raw observation recorded by the loop body at cell `(ri, ci)` for
direction `d`: the direction's target passes the in-bounds/not-self guard and
holds tile id `b`. -/
def cellObs (g : List (List TileType)) (tid : TileType → Nat)
    (rows cols ri ci : Nat) (d : Direction) (b : Nat) : Prop :=
  (dirTarget ri ci d).1 < rows ∧ (dirTarget ri ci d).2 < cols
  ∧ ¬((dirTarget ri ci d).1 = ri ∧ (dirTarget ri ci d).2 = ci)
  ∧ tid (cellAt g (dirTarget ri ci d).1 (dirTarget ri ci d).2) = b

/-- Spec-side in-bounds neighbour of a cell of an `h × w` grid: up/left exist
above index 0, down/right exist strictly inside the far edges. -/
def inBoundsNeighbor (h w : Nat) (d : Direction) (ri ci : Nat) : Option (Nat × Nat) :=
  match d with
  | Direction.Up => if 0 < ri then some (ri - 1, ci) else none
  | Direction.Down => if ri + 1 < h then some (ri + 1, ci) else none
  | Direction.Left => if 0 < ci then some (ri, ci - 1) else none
  | Direction.Right => if ci + 1 < w then some (ri, ci + 1) else none

/-- Some cell of the `h × w` sample holds tile id `a` and its in-bounds
neighbour in direction `d` holds tile id `b`. -/
def observedAdj (g : List (List TileType)) (tid : TileType → Nat) (h w : Nat)
    (a : Nat) (d : Direction) (b : Nat) : Prop :=
  ∃ ri ci, ri < h ∧ ci < w ∧ tid (cellAt g ri ci) = a
    ∧ ∃ rc, inBoundsNeighbor h w d ri ci = some rc ∧ tid (cellAt g rc.1 rc.2) = b

/-- The inverse direction of the spec: Up↔Down, Left↔Right. -/
def Direction.inverse : Direction → Direction
  | Direction.Up => Direction.Down
  | Direction.Down => Direction.Up
  | Direction.Left => Direction.Right
  | Direction.Right => Direction.Left

/-- The tile-numbering closure of `sps_usage_test`. -/
def tile_to_id : TileType → Nat
  | TileType.Empty => 0
  | TileType.Mountain => 1
  | TileType.Land => 2
  | TileType.Coast => 3
  | TileType.Water => 4

lemma mem_hsInsert (s : List (Direction × Nat)) (x y : Direction × Nat) :
    x ∈ hsInsert s y ↔ x = y ∨ x ∈ s := by
  unfold hsInsert
  by_cases hy : y ∈ s
  · rw [if_pos hy]
    constructor
    · exact Or.inr
    · rintro (rfl | h)
      · exact hy
      · exact h
  · rw [if_neg hy]
    simp [or_comm]

lemma mem_insStep (g : List (List TileType)) (tid : TileType → Nat)
    (rows cols ri ci : Nat) (d' : Direction) (s : List (Direction × Nat))
    (x : Direction × Nat) :
    x ∈ insStep g tid rows cols ri ci d' s
      ↔ (x = (d', tid (cellAt g (dirTarget ri ci d').1 (dirTarget ri ci d').2))
          ∧ (dirTarget ri ci d').1 < rows ∧ (dirTarget ri ci d').2 < cols
          ∧ ¬((dirTarget ri ci d').1 = ri ∧ (dirTarget ri ci d').2 = ci))
        ∨ x ∈ s := by
  unfold insStep
  by_cases hc : (dirTarget ri ci d').1 < rows ∧ (dirTarget ri ci d').2 < cols
      ∧ ¬((dirTarget ri ci d').1 = ri ∧ (dirTarget ri ci d').2 = ci)
  · rw [if_pos hc, mem_hsInsert]
    tauto
  · rw [if_neg hc]
    tauto

lemma mem_processCell (g : List (List TileType)) (tid : TileType → Nat)
    (rows cols ri ci : Nat) (t : TileType) (m : AdjMap)
    (a : Nat) (d : Direction) (b : Nat) :
    adjMem (processCell g tid rows cols ri ci t m) a d b
      ↔ (tid t = a ∧ cellObs g tid rows cols ri ci d b) ∨ adjMem m a d b := by
  unfold adjMem processCell
  by_cases ha : a = tid t
  · subst ha
    rw [if_pos rfl]
    show (d, b) ∈ _ ↔ _
    rw [Option.getD_some, mem_insStep, mem_insStep, mem_insStep, mem_insStep]
    cases d <;>
      simp [cellObs, Prod.ext_iff, eq_comm] <;> tauto
  · rw [if_neg ha]
    have : ¬(tid t = a ∧ cellObs g tid rows cols ri ci d b) := by
      rintro ⟨h1, -⟩
      exact ha h1.symm
    tauto

lemma mem_buildCells (g : List (List TileType)) (tid : TileType → Nat)
    (rows cols ri : Nat) (row : List TileType) :
    ∀ (ci : Nat) (m : AdjMap) (a : Nat) (d : Direction) (b : Nat),
      adjMem (buildCells g tid rows cols ri ci row m) a d b
        ↔ (∃ j, j < row.length ∧ tid (row.getD j TileType.Empty) = a
              ∧ cellObs g tid rows cols ri (ci + j) d b)
          ∨ adjMem m a d b := by
  induction row with
  | nil =>
      intro ci m a d b
      simp [buildCells]
  | cons t rest ih =>
      intro ci m a d b
      rw [show buildCells g tid rows cols ri ci (t :: rest) m
            = buildCells g tid rows cols ri (ci + 1) rest
                (processCell g tid rows cols ri ci t m) from rfl,
          ih, mem_processCell]
      constructor
      · rintro (⟨j, hj, hja, hobs⟩ | ⟨hta, hobs⟩ | hm)
        · exact Or.inl ⟨j + 1, by simpa using hj, by simpa using hja,
            by rw [show ci + (j + 1) = ci + 1 + j by omega]; exact hobs⟩
        · exact Or.inl ⟨0, by simp, by simpa using hta, by simpa using hobs⟩
        · exact Or.inr hm
      · rintro (⟨j, hj, hja, hobs⟩ | hm)
        · cases j with
          | zero =>
              refine Or.inr (Or.inl ⟨by simpa using hja, by simpa using hobs⟩)
          | succ k =>
              refine Or.inl ⟨k, by simpa using hj, by simpa using hja, ?_⟩
              rw [show ci + 1 + k = ci + (k + 1) by omega]
              exact hobs
        · exact Or.inr (Or.inr hm)

lemma mem_buildRows (g : List (List TileType)) (tid : TileType → Nat) (rows : Nat)
    (rs : List (List TileType)) :
    ∀ (ri : Nat) (m : AdjMap) (a : Nat) (d : Direction) (b : Nat),
      adjMem (buildRows g tid rows ri rs m) a d b
        ↔ (∃ i, i < rs.length ∧ ∃ j, j < (rs.getD i []).length
              ∧ tid ((rs.getD i []).getD j TileType.Empty) = a
              ∧ cellObs g tid rows (rs.getD i []).length (ri + i) j d b)
          ∨ adjMem m a d b := by
  induction rs with
  | nil =>
      intro ri m a d b
      simp [buildRows]
  | cons row rest ih =>
      intro ri m a d b
      rw [show buildRows g tid rows ri (row :: rest) m
            = buildRows g tid rows (ri + 1) rest
                (buildCells g tid rows row.length ri 0 row m) from rfl,
          ih, mem_buildCells]
      constructor
      · rintro (⟨i, hi, j, hj, hja, hobs⟩ | ⟨j, hj, hja, hobs⟩ | hm)
        · exact Or.inl ⟨i + 1, by simpa using hi, j, by simpa using hj,
            by simpa using hja,
            by rw [show ri + (i + 1) = ri + 1 + i by omega]; exact hobs⟩
        · exact Or.inl ⟨0, by simp, j, by simpa using hj, by simpa using hja,
            by simpa using hobs⟩
        · exact Or.inr hm
      · rintro (⟨i, hi, j, hj, hja, hobs⟩ | hm)
        · cases i with
          | zero =>
              refine Or.inr (Or.inl ⟨j, by simpa using hj, by simpa using hja,
                by simpa using hobs⟩)
          | succ k =>
              refine Or.inl ⟨k, by simpa using hi, j, by simpa using hj,
                by simpa using hja, ?_⟩
              rw [show ri + 1 + k = ri + (k + 1) by omega]
              exact hobs
        · exact Or.inr (Or.inr hm)

lemma cellObs_iff_neighbor (g : List (List TileType)) (tid : TileType → Nat)
    (h w ri ci : Nat) (d : Direction) (b : Nat)
    (hh : h < USIZE) (hw : w < USIZE) (hri : ri < h) (hci : ci < w) :
    cellObs g tid h w ri ci d b
      ↔ ∃ rc, inBoundsNeighbor h w d ri ci = some rc ∧ tid (cellAt g rc.1 rc.2) = b := by
  have husize : 0 < USIZE := by decide
  cases d
  · by_cases h0 : ri = 0
    · subst h0
      have hno : ¬ wrapping_sub1 0 < h := by
        have he : wrapping_sub1 0 = USIZE - 1 := rfl
        rw [he]
        unfold USIZE at hh ⊢
        omega
      simp [cellObs, dirTarget, inBoundsNeighbor, hno]
    · have hws : wrapping_sub1 ri = ri - 1 := by
        unfold wrapping_sub1
        rw [if_neg h0]
      simp only [cellObs, dirTarget, inBoundsNeighbor, hws,
        if_pos (Nat.pos_of_ne_zero h0)]
      constructor
      · rintro ⟨-, -, -, hb⟩
        exact ⟨(ri - 1, ci), rfl, hb⟩
      · rintro ⟨rc, hrc, hb⟩
        obtain rfl : rc = (ri - 1, ci) := by
          injection hrc with h1
          exact h1.symm
        exact ⟨by omega, hci, by omega, hb⟩
  · by_cases hd : ri + 1 < h
    · simp only [cellObs, dirTarget, inBoundsNeighbor, if_pos hd]
      constructor
      · rintro ⟨-, -, -, hb⟩
        exact ⟨(ri + 1, ci), rfl, hb⟩
      · rintro ⟨rc, hrc, hb⟩
        obtain rfl : rc = (ri + 1, ci) := by
          injection hrc with h1
          exact h1.symm
        exact ⟨hd, hci, by omega, hb⟩
    · simp [cellObs, dirTarget, inBoundsNeighbor, hd]
  · by_cases h0 : ci = 0
    · subst h0
      have hno : ¬ wrapping_sub1 0 < w := by
        have he : wrapping_sub1 0 = USIZE - 1 := rfl
        rw [he]
        unfold USIZE at hw ⊢
        omega
      simp [cellObs, dirTarget, inBoundsNeighbor, hno]
    · have hws : wrapping_sub1 ci = ci - 1 := by
        unfold wrapping_sub1
        rw [if_neg h0]
      simp only [cellObs, dirTarget, inBoundsNeighbor, hws,
        if_pos (Nat.pos_of_ne_zero h0)]
      constructor
      · rintro ⟨-, -, -, hb⟩
        exact ⟨(ri, ci - 1), rfl, hb⟩
      · rintro ⟨rc, hrc, hb⟩
        obtain rfl : rc = (ri, ci - 1) := by
          injection hrc with h1
          exact h1.symm
        exact ⟨hri, by omega, by omega, hb⟩
  · by_cases hd : ci + 1 < w
    · simp only [cellObs, dirTarget, inBoundsNeighbor, if_pos hd]
      constructor
      · rintro ⟨-, -, -, hb⟩
        exact ⟨(ri, ci + 1), rfl, hb⟩
      · rintro ⟨rc, hrc, hb⟩
        obtain rfl : rc = (ri, ci + 1) := by
          injection hrc with h1
          exact h1.symm
        exact ⟨hri, hd, by omega, hb⟩
    · simp [cellObs, dirTarget, inBoundsNeighbor, hd]

lemma adjMem_empty (a : Nat) (d : Direction) (b : Nat) :
    ¬ adjMem (fun _ => none) a d b := by
  simp [adjMem]

/-- Characterization of the learned rules on a rectangular sample: the map
contains `(d, b)` under `a` exactly when some cell holds `a` with an in-bounds
`d`-neighbour holding `b`. -/
lemma adjacency_characterization (g : List (List TileType)) (tid : TileType → Nat)
    (h w : Nat) (hrect : RectGrid g h w) (hh : h < USIZE) (hw : w < USIZE)
    (a : Nat) (d : Direction) (b : Nat) :
    adjMem (build_adjacency_rules g tid) a d b ↔ observedAdj g tid h w a d b := by
  obtain ⟨hlen, hrow⟩ := hrect
  have hrowlen : ∀ i, i < h → (g.getD i []).length = w := by
    intro i hi
    apply hrow
    rw [List.getD_eq_getElem g [] (by omega)]
    exact List.getElem_mem _
  unfold build_adjacency_rules
  rw [mem_buildRows]
  simp only [hlen, Nat.zero_add, adjMem_empty, or_false]
  constructor
  · rintro ⟨i, hi, j, hj, hja, hobs⟩
    have hw' := hrowlen i hi
    rw [hw'] at hj hobs
    refine ⟨i, j, hi, hj, hja, ?_⟩
    exact (cellObs_iff_neighbor g tid h w i j d b hh hw hi hj).mp hobs
  · rintro ⟨ri, ci, hri, hci, ha, hnb⟩
    have hw' := hrowlen ri hri
    refine ⟨ri, hri, ci, by rw [hw']; exact hci, ha, ?_⟩
    rw [hw']
    exact (cellObs_iff_neighbor g tid h w ri ci d b hh hw hri hci).mpr hnb

lemma Direction.inverse_inverse (d : Direction) : d.inverse.inverse = d := by
  cases d <;> rfl

lemma observedAdj_symm_fwd (g : List (List TileType)) (tid : TileType → Nat)
    (h w a b : Nat) (d : Direction) :
    observedAdj g tid h w a d b → observedAdj g tid h w b d.inverse a := by
  rintro ⟨ri, ci, hri, hci, ha, rc, hnb, hb⟩
  cases d
  · simp only [inBoundsNeighbor] at hnb
    split_ifs at hnb with h0
    · injection hnb with h1
      subst h1
      have hstep : ri - 1 + 1 = ri := by omega
      refine ⟨ri - 1, ci, by omega, hci, hb, (ri, ci), ?_, ha⟩
      simp only [Direction.inverse, inBoundsNeighbor, hstep]
      rw [if_pos hri]
  · simp only [inBoundsNeighbor] at hnb
    split_ifs at hnb with h0
    · injection hnb with h1
      subst h1
      have hstep : ri + 1 - 1 = ri := by omega
      refine ⟨ri + 1, ci, h0, hci, hb, (ri, ci), ?_, ha⟩
      simp only [Direction.inverse, inBoundsNeighbor, hstep]
      rw [if_pos (by omega : 0 < ri + 1)]
  · simp only [inBoundsNeighbor] at hnb
    split_ifs at hnb with h0
    · injection hnb with h1
      subst h1
      have hstep : ci - 1 + 1 = ci := by omega
      refine ⟨ri, ci - 1, hri, by omega, hb, (ri, ci), ?_, ha⟩
      simp only [Direction.inverse, inBoundsNeighbor, hstep]
      rw [if_pos hci]
  · simp only [inBoundsNeighbor] at hnb
    split_ifs at hnb with h0
    · injection hnb with h1
      subst h1
      have hstep : ci + 1 - 1 = ci := by omega
      refine ⟨ri, ci + 1, hri, h0, hb, (ri, ci), ?_, ha⟩
      simp only [Direction.inverse, inBoundsNeighbor, hstep]
      rw [if_pos (by omega : 0 < ci + 1)]

lemma observedAdj_symm (g : List (List TileType)) (tid : TileType → Nat)
    (h w a b : Nat) (d : Direction) :
    observedAdj g tid h w a d b ↔ observedAdj g tid h w b d.inverse a := by
  constructor
  · exact observedAdj_symm_fwd g tid h w a b d
  · intro h2
    have h3 := observedAdj_symm_fwd g tid h w b a d.inverse h2
    rwa [Direction.inverse_inverse] at h3

/-- C2: the learned adjacency relation is symmetric on every rectangular
sample grid: `(d, b)` is in the entry for `a` exactly when `(inverse d, a)` is
in the entry for `b`, where inverse swaps Up with Down and Left with Right. -/
theorem adjacency_rules_symmetric (g : List (List TileType)) (tid : TileType → Nat)
    (h w : Nat) (hrect : RectGrid g h w) (hh : h < USIZE) (hw : w < USIZE)
    (a : Nat) (d : Direction) (b : Nat) :
    adjMem (build_adjacency_rules g tid) a d b
      ↔ adjMem (build_adjacency_rules g tid) b d.inverse a := by
  rw [adjacency_characterization g tid h w hrect hh hw,
      adjacency_characterization g tid h w hrect hh hw]
  exact observedAdj_symm g tid h w a b d

/-- C2 witness: symmetry instantiated on the 2×2 Land/Water checkerboard with
the ids of `sps_usage_test`, for (Land, Down, Water). -/
theorem adjacency_rules_symmetric_witness :
    RectGrid [[TileType.Land, TileType.Water], [TileType.Water, TileType.Land]] 2 2
    ∧ 2 < USIZE ∧ 2 < USIZE
    ∧ (adjMem (build_adjacency_rules
          [[TileType.Land, TileType.Water], [TileType.Water, TileType.Land]] tile_to_id)
          2 Direction.Down 4
        ↔ adjMem (build_adjacency_rules
          [[TileType.Land, TileType.Water], [TileType.Water, TileType.Land]] tile_to_id)
          4 Direction.Down.inverse 2) :=
  ⟨⟨rfl, by decide⟩, by decide, by decide,
    adjacency_rules_symmetric
      [[TileType.Land, TileType.Water], [TileType.Water, TileType.Land]] tile_to_id
      2 2 ⟨rfl, by decide⟩ (by decide) (by decide) 2 Direction.Down 4⟩

/-- C3: the border edge policy. On a rectangular sample, the learned map
records `(d, b)` under `a` exactly when some cell holds tile id `a` and its
in-bounds neighbour in direction `d` holds tile id `b`; border cells
contribute no fact for directions that leave the grid, since those directions
have no in-bounds neighbour. -/
theorem adjacency_border_policy (g : List (List TileType)) (tid : TileType → Nat)
    (h w : Nat) (hrect : RectGrid g h w) (hh : h < USIZE) (hw : w < USIZE)
    (a : Nat) (d : Direction) (b : Nat) :
    adjMem (build_adjacency_rules g tid) a d b ↔ observedAdj g tid h w a d b :=
  adjacency_characterization g tid h w hrect hh hw a d b

/-- C3 witness: the characterization instantiated on the 2×2 checkerboard for
(Land, Up, Water). -/
theorem adjacency_border_policy_witness :
    RectGrid [[TileType.Land, TileType.Water], [TileType.Water, TileType.Land]] 2 2
    ∧ 2 < USIZE ∧ 2 < USIZE
    ∧ (adjMem (build_adjacency_rules
          [[TileType.Land, TileType.Water], [TileType.Water, TileType.Land]] tile_to_id)
          2 Direction.Up 4
        ↔ observedAdj [[TileType.Land, TileType.Water], [TileType.Water, TileType.Land]]
          tile_to_id 2 2 2 Direction.Up 4) :=
  ⟨⟨rfl, by decide⟩, by decide, by decide,
    adjacency_border_policy
      [[TileType.Land, TileType.Water], [TileType.Water, TileType.Land]] tile_to_id
      2 2 ⟨rfl, by decide⟩ (by decide) (by decide) 2 Direction.Up 4⟩

lemma hsInsert_nodup (s : List (Direction × Nat)) (x : Direction × Nat)
    (h : s.Nodup) : (hsInsert s x).Nodup := by
  unfold hsInsert
  by_cases hx : x ∈ s
  · rw [if_pos hx]
    exact h
  · rw [if_neg hx]
    simp [List.nodup_append, h, hx]

/-- Every entry of the map is a duplicate-free fact list. -/
def AdjNodup (m : AdjMap) : Prop := ∀ k, ((m k).getD []).Nodup

lemma insStep_nodup (g : List (List TileType)) (tid : TileType → Nat)
    (rows cols ri ci : Nat) (d : Direction) (s : List (Direction × Nat))
    (h : s.Nodup) : (insStep g tid rows cols ri ci d s).Nodup := by
  unfold insStep
  split
  · exact hsInsert_nodup _ _ h
  · exact h

lemma processCell_nodup (g : List (List TileType)) (tid : TileType → Nat)
    (rows cols ri ci : Nat) (t : TileType) (m : AdjMap) (h : AdjNodup m) :
    AdjNodup (processCell g tid rows cols ri ci t m) := by
  intro k
  simp only [processCell]
  by_cases hk : k = tid t
  · rw [if_pos hk, Option.getD_some]
    exact insStep_nodup _ _ _ _ _ _ _ _
      (insStep_nodup _ _ _ _ _ _ _ _
        (insStep_nodup _ _ _ _ _ _ _ _
          (insStep_nodup _ _ _ _ _ _ _ _ (h (tid t)))))
  · rw [if_neg hk]
    exact h k

lemma buildCells_nodup (g : List (List TileType)) (tid : TileType → Nat)
    (rows cols ri : Nat) (row : List TileType) :
    ∀ (ci : Nat) (m : AdjMap), AdjNodup m →
      AdjNodup (buildCells g tid rows cols ri ci row m) := by
  induction row with
  | nil =>
      intro ci m h
      exact h
  | cons t rest ih =>
      intro ci m h
      exact ih (ci + 1) _ (processCell_nodup g tid rows cols ri ci t m h)

lemma buildRows_nodup (g : List (List TileType)) (tid : TileType → Nat) (rows : Nat)
    (rs : List (List TileType)) :
    ∀ (ri : Nat) (m : AdjMap), AdjNodup m →
      AdjNodup (buildRows g tid rows ri rs m) := by
  induction rs with
  | nil =>
      intro ri m h
      exact h
  | cons row rest ih =>
      intro ri m h
      exact ih (ri + 1) _ (buildCells_nodup g tid rows row.length ri row 0 m h)

/-- C8: learning is deterministic and duplicate-free. `build_adjacency_rules`
is a pure function, so two runs on the same sample are equal; and every entry
of the result is a duplicate-free list of (direction, neighbour-id) facts, so
a fact observed many times appears at most once per tile id. -/
theorem adjacency_learning_idempotent (g : List (List TileType)) (tid : TileType → Nat) :
    build_adjacency_rules g tid = build_adjacency_rules g tid
    ∧ ∀ a, ((build_adjacency_rules g tid a).getD []).Nodup :=
  ⟨rfl, buildRows_nodup g tid g.length g 0 (fun _ => none) (fun _ => List.nodup_nil)⟩
